import Mathlib

/-!
Verification of the `ai-research-rag` repository's core logic against its
specification.  Text is modelled as `List Char` (Python `str` is a sequence of
code points), Python integers as `Int`/`Nat`, Python floats as `ℚ`, fallible
code as `Option`/`Except`, and the unbounded `while` loop of the chunker as a
fuel-indexed recursion (`none` = the loop has not finished within the given
fuel; divergence = `none` for every fuel).
-/

/-- Text is a list of characters, as Python strings are sequences of code points. -/
abbrev Str := List Char

/-- Whitespace characters removed by Python `str.strip()` (the ASCII ones;
the repository's texts are ASCII). -/
def isPyWS (c : Char) : Bool :=
  c = ' ' || c = '\t' || c = '\n' || c = '\r' || c = '\x0b' || c = '\x0c'

/-- Python `s.strip()`: remove leading and trailing whitespace. -/
def pyStrip (l : Str) : Str :=
  ((l.dropWhile isPyWS).reverse.dropWhile isPyWS).reverse

/-- Python slice `l[i:j]` with full Python semantics: negative indices count
from the end, then both bounds are clamped to `[0, len l]`. -/
def pySlice (l : Str) (i j : Int) : Str :=
  let n : Int := l.length
  let i' : Int := if i < 0 then max (n + i) 0 else min i n
  let j' : Int := if j < 0 then max (n + j) 0 else min j n
  (l.drop i'.toNat).take (j' - i').toNat

/-- Python `s.rfind(c)`: index of the last occurrence of `c`, `-1` if absent. -/
def rfind : Str → Char → Int
  | [], _ => -1
  | a :: as, c =>
    let r := rfind as c
    if 0 ≤ r then r + 1 else if a = c then 0 else -1

/-- One iteration of the chunking loop of
`AgnoRAGKnowledgeBase._chunk_text` (src/agno_knowledge.py lines 54-65):
take the window `text[start:start+chunk_size]`; if this is not the final
window, find the break point `max(chunk.rfind('.'), chunk.rfind('\n'))` and,
when it lies strictly past `chunk_size // 2`, shrink the window to
`chunk[:break_point+1]` and set `end = start + break_point + 1`.
Returns the (untrimmed) window together with the final value of `end`. -/
def chunkStep (cs : Nat) (t : Str) (start : Int) : Str × Int :=
  let e0 : Int := start + (cs : Int)
  let w0 := pySlice t start e0
  if e0 < (t.length : Int) then
    let bp := max (rfind w0 '.') (rfind w0 '\n')
    if ((cs / 2 : Nat) : Int) < bp then (pySlice w0 0 (bp + 1), start + bp + 1)
    else (w0, e0)
  else (w0, e0)

/-- The `while start < len(text)` loop of `_chunk_text` (lines 53-71), as a
fuel-indexed recursion: each pass appends the trimmed window (`chunk.strip()`)
and advances the cursor to `end - chunk_overlap`; `none` means the loop has
not terminated within `fuel` iterations. -/
def chunkLoop (cs ov : Nat) (t : Str) : Nat → Int → Option (List Str)
  | 0, _ => none
  | fuel + 1, start =>
    if start < (t.length : Int) then
      let p := chunkStep cs t start
      (chunkLoop cs ov t fuel (p.2 - (ov : Int))).map (fun rest => pyStrip p.1 :: rest)
    else some []

/-- `AgnoRAGKnowledgeBase._chunk_text` (src/agno_knowledge.py lines 45-73):
a text no longer than `chunk_size` is returned as the single-element list
`[text]`; otherwise the windowing loop runs from cursor `0`. -/
def chunkText (fuel cs ov : Nat) (t : Str) : Option (List Str) :=
  if t.length ≤ cs then some [t] else chunkLoop cs ov t fuel 0

/-- The chunker diverges on an input: the loop finishes within no fuel bound. -/
def chunkDiverges (cs ov : Nat) (t : Str) : Prop :=
  ∀ fuel, chunkText fuel cs ov t = none

/-- The same loop, recording the untrimmed windows instead of the trimmed
chunks (proof device: the emitted chunks are these windows `pyStrip`ped). -/
def windowLoop (cs ov : Nat) (t : Str) : Nat → Int → Option (List Str)
  | 0, _ => none
  | fuel + 1, start =>
    if start < (t.length : Int) then
      let p := chunkStep cs t start
      (windowLoop cs ov t fuel (p.2 - (ov : Int))).map (fun rest => p.1 :: rest)
    else some []

/-- Concatenation of a chunk sequence with the first `ov` characters of every
chunk removed (used for overlap-removal reconstruction). -/
def dropConcat (ov : Nat) (ws : List Str) : Str :=
  (ws.map (List.drop ov)).flatten

/-- Concatenation-with-overlap-removal: the first chunk in full, every later
chunk with its leading `ov` characters (the declared overlap) removed. -/
def reconOverlap (ov : Nat) : List Str → Str
  | [] => []
  | w :: rest => w ++ dropConcat ov rest

/-- Index of the last occurrence of a character, `-1` when absent — the
specification's "last occurrence" notion, phrased via the reversed list
(spec 4.1 step c). -/
def lastIndexOf (l : Str) (c : Char) : Int :=
  match l.reverse.findIdx? (fun a => a = c) with
  | some k => (l.length : Int) - 1 - k
  | none => -1

/-- One window of the specification's windowing algorithm (spec 4.1 steps
a-d): candidate window `text[start:start+chunk_size]`; for a non-final window
`break_point = max(last occurrence of '.', last occurrence of newline)`
(absence = `-1`); when `break_point > chunk_size / 2` (integer division,
strictly) the window becomes `text[start:start+break_point+1]` and
`end = start + break_point + 1`.  Slices are written in the spec in Python
notation and are read with Python slice semantics. -/
def specStep (cs : Nat) (t : Str) (start : Int) : Str × Int :=
  let e0 : Int := start + (cs : Int)
  let w0 := pySlice t start e0
  if e0 < (t.length : Int) then
    let bp := max (lastIndexOf w0 '.') (lastIndexOf w0 '\n')
    if ((cs / 2 : Nat) : Int) < bp then (pySlice t start (start + bp + 1), start + bp + 1)
    else (w0, e0)
  else (w0, e0)

/-- The specification's loop (spec 4.1 step 2): while `start < length(text)`,
append the candidate window trimmed of leading/trailing whitespace (step e, no
empty-string filtering) and advance `start = end - overlap` (step f),
stopping when the new start passes the end of the text (step g). -/
def specChunkLoop (cs ov : Nat) (t : Str) : Nat → Int → Option (List Str)
  | 0, _ => none
  | fuel + 1, start =>
    if start < (t.length : Int) then
      let p := specStep cs t start
      (specChunkLoop cs ov t fuel (p.2 - (ov : Int))).map (fun rest => pyStrip p.1 :: rest)
    else some []

/-- The specification's chunking algorithm (spec 4.1): texts no longer than
`chunk_size` become the one-element sequence `[text]` (step 1), longer texts
are windowed by `specChunkLoop` starting from cursor `0`. -/
def specChunk (fuel cs ov : Nat) (t : Str) : Option (List Str) :=
  if t.length ≤ cs then some [t] else specChunkLoop cs ov t fuel 0

/-- A 21-character text whose first window snaps at a period just past the
midpoint: with `chunk_size = 10` and `overlap = 9` the cursor cycles
`0 → -2 → -1 → 0` forever. -/
def cycleText : Str := "abcdef.xyzABCDEFGHIJK".data

/-- Eleven characters with no sentence break: with `overlap = chunk_size = 10`
the cursor stays at `0` forever. -/
def stallText : Str := List.replicate 11 'a'

/-- A metadata value (the JSON-like scalars the service stores). -/
inductive MetaValue where
  | int (i : Int)
  | str (s : String)
  | bool (b : Bool)
  | float (q : ℚ)
  deriving DecidableEq

/-- A Python dict of metadata, as an association list (later inserts override). -/
abbrev Metadata := List (String × MetaValue)

/-- Lookup in a metadata dict (first binding wins; `dictInsert` keeps keys unique). -/
def dictGet : Metadata → String → Option MetaValue
  | [], _ => none
  | (k, v) :: d, k' => if k' = k then some v else dictGet d k'

/-- Dict update `d[k] = v`: any old binding of `k` is replaced. -/
def dictInsert (d : Metadata) (k : String) (v : MetaValue) : Metadata :=
  (d.filter (fun p => decide (p.1 ≠ k))) ++ [(k, v)]

/-- Per-chunk metadata synthesized by `add_text_document`
(src/agno_knowledge.py lines 87-92): the caller-supplied dict with
`chunk_index`, `total_chunks` and `original_doc_length` added
(`{**metadata, ...}`: the fixed keys override the caller's). -/
def chunkMetadata (metadata : Metadata) (i total dlen : Nat) : Metadata :=
  dictInsert (dictInsert (dictInsert metadata
    "chunk_index" (.int i)) "total_chunks" (.int total)) "original_doc_length" (.int dlen)

/-- One `(id, embedding, document, metadata)` tuple handed to
`collection.add` (src/agno_knowledge.py lines 98-103). -/
structure StoredRecord where
  id : String
  embedding : List ℚ
  text : Str
  metadata : Metadata
  deriving DecidableEq

/-- `AgnoRAGKnowledgeBase.add_text_document` (src/agno_knowledge.py lines
75-108): chunk the content, then per chunk draw a fresh id, synthesize
metadata, embed, and store; returns the stored records in chunk order (the
Python function returns their ids).  The uuid4 supply is modelled as an
injective stream `ids`, the embedder as an abstract function; the loop
runs the chunker with fuel `length + 1`, which suffices whenever the chunker
terminates at all (`windowLoop_total`). -/
def addTextDocument (cs ov : Nat) (embedder : Str → List ℚ) (ids : Nat → String)
    (content : Str) (metadata : Metadata) : Option (List StoredRecord) :=
  (chunkText (content.length + 1) cs ov content).map fun chunks =>
    chunks.enum.map fun p =>
      { id := ids p.1
        embedding := embedder p.2
        text := p.2
        metadata := chunkMetadata metadata p.1 chunks.length content.length }

/-- Round a rational to the nearest integer, ties to even (the rounding of
Python float formatting; Python floats are modelled as rationals). -/
def roundHalfEven (q : ℚ) : Int :=
  if q - ⌊q⌋ < 1/2 then ⌊q⌋
  else if (1/2 : ℚ) < q - ⌊q⌋ then ⌊q⌋ + 1
  else if ⌊q⌋ % 2 = 0 then ⌊q⌋ else ⌊q⌋ + 1

/-- Python `f"{x:.2f}"` on the score, modelled over `ℚ`. -/
def format2f (q : ℚ) : String :=
  (if roundHalfEven (q * 100) < 0 then "-" else "") ++
    toString ((roundHalfEven (q * 100)).natAbs / 100) ++ "." ++
    (if (roundHalfEven (q * 100)).natAbs % 100 < 10 then "0" else "") ++
    toString ((roundHalfEven (q * 100)).natAbs % 100)

/-- `settings.LLM_MODEL` (src/config.py line 23, default value). -/
def LLM_MODEL : String := "llama2"

/-- One search result as formatted by `AgnoRAGKnowledgeBase.search`
(src/agno_knowledge.py lines 166-172). -/
structure RetrievedDoc where
  id : String
  content : String
  metadata : Metadata
  distance : ℚ
  score : ℚ
  deriving DecidableEq

/-- `RAGService._prepare_context` (src/rag_service.py lines 157-168). -/
def prepareContext (docs : List RetrievedDoc) : String :=
  if docs = [] then "No relevant context found."
  else String.intercalate "\n\n" (docs.enum.map fun p =>
    "Document " ++ toString (p.1 + 1) ++ " (relevance: " ++ format2f p.2.score ++
      "):\n" ++ p.2.content)

/-- `RAGService._fallback_response` (src/rag_service.py lines 170-187): with
no retrieved documents, a templated message naming the query; otherwise a
templated message with the top result's score to two decimals and its content
truncated to 500 characters, an ellipsis appended exactly when longer.  (The
dead `return` of line 187 is unreachable: a result dict is always truthy.) -/
def fallbackResponse (q : String) (docs : List RetrievedDoc) : String :=
  match docs with
  | [] =>
    "I found no relevant documents to answer your question: '" ++ q ++
      "'. Please try rephrasing your question or add more documents to the knowledge base."
  | d :: _ =>
    "Based on the most relevant document (similarity: " ++ format2f d.score ++
      "), here's what I found:\n\n" ++
      d.content.take 500 ++ (if 500 < d.content.length then "..." else "") ++
      "\n\nNote: This is a simplified response. For better answers, please ensure Ollama is running with the '" ++
      LLM_MODEL ++ "' model."

/-- `models.QueryRequest` (src/models.py lines 11-14). -/
structure QueryRequest where
  query : String
  top_k : Nat
  deriving DecidableEq

/-- `models.DocumentResponse` (src/models.py lines 16-21). -/
structure DocumentResponse where
  id : String
  content : String
  metadata : Metadata
  score : Option ℚ
  deriving DecidableEq

/-- `models.QueryResponse` (src/models.py lines 23-27). -/
structure QueryResponse where
  answer : String
  sources : List DocumentResponse
  query : String
  deriving DecidableEq

/-- The prompt `RAGService.query` builds for the agent (src/rag_service.py
lines 110-115). -/
def promptFor (docs : List RetrievedDoc) (q : String) : String :=
  "Context from knowledge base:\n" ++ prepareContext docs ++ "\n\nQuestion: " ++ q ++
    "\n\nPlease answer the question based on the context provided above."

/-- The body of the `try` block of `RAGService.query` (src/rag_service.py
lines 98-145): search the knowledge base, then either prompt the agent (which
may raise — modelled as `Except`) or build the local fallback answer, and
assemble the response.  `searchFn` models `knowledge_base.search` (total:
it catches its own exceptions, see `searchKB`). -/
def ragQueryBody (llmAvailable : Bool) (agentRun : String → Except String String)
    (searchFn : String → Nat → List RetrievedDoc) (req : QueryRequest) :
    Except String QueryResponse := do
  let docs := searchFn req.query req.top_k
  let answer ←
    if llmAvailable then agentRun (promptFor docs req.query)
    else pure (fallbackResponse req.query docs)
  pure { answer := answer
         sources := docs.map fun d =>
           { id := d.id, content := d.content, metadata := d.metadata, score := some d.score }
         query := req.query }

/-- `RAGService.query` (src/rag_service.py lines 96-155): the body wrapped in
`try/except` — any exception becomes a `QueryResponse` whose answer reports
the error, with empty sources and the query echoed. -/
def ragQuery (llmAvailable : Bool) (agentRun : String → Except String String)
    (searchFn : String → Nat → List RetrievedDoc) (req : QueryRequest) : QueryResponse :=
  match ragQueryBody llmAvailable agentRun searchFn req with
  | .ok r => r
  | .error e =>
    { answer := "Sorry, I encountered an error while processing your query: " ++ e
      sources := []
      query := req.query }

/-- The shape of a ChromaDB `collection.query` result as `search` reads it
(src/agno_knowledge.py lines 157-171): per-query lists of ids/documents, and
optionally metadatas and distances (`None`/empty modelled as `none`).  A query
against an empty collection returns `ids = [[]]`. -/
structure RawResults where
  ids : List (List String)
  documents : List (List String)
  metadatas : Option (List (List Metadata))
  distances : Option (List (List ℚ))

/-- The result-formatting loop of `search` (src/agno_knowledge.py lines
162-175): when the first id list is non-empty, build one record per id with
`score = 1 - distance` (ChromaDB returns shape-aligned lists; reading a
missing entry is modelled with a default). -/
def formatResults (raw : RawResults) : List RetrievedDoc :=
  if raw.ids ≠ [] ∧ 0 < (raw.ids.getD 0 []).length then
    (List.range (raw.ids.getD 0 []).length).map fun i =>
      { id := (raw.ids.getD 0 []).getD i ""
        content := (raw.documents.getD 0 []).getD i ""
        metadata := match raw.metadatas with
          | some ms => (ms.getD 0 []).getD i []
          | none => []
        distance := match raw.distances with
          | some ds => (ds.getD 0 []).getD i 0
          | none => 0
        score := match raw.distances with
          | some ds => 1 - (ds.getD 0 []).getD i 0
          | none => 1 }
  else []

/-- `AgnoRAGKnowledgeBase.search` (src/agno_knowledge.py lines 150-178):
embed the query, query the collection, format; any exception from the
embedder or the collection is caught and the empty list returned. -/
def searchKB (embedQ : String → Except String (List ℚ))
    (collQuery : List ℚ → Nat → Except String RawResults)
    (q : String) (limit : Nat) : List RetrievedDoc :=
  match (do
    let emb ← embedQ q
    let raw ← collQuery emb limit
    pure (formatResults raw) : Except String (List RetrievedDoc)) with
  | .ok r => r
  | .error _ => []

/-- A concrete retrieved document with score `0.92` and 501-character content
(the spec section 8 test vector for the fallback answer). -/
def topDoc : RetrievedDoc :=
  { id := "doc-1"
    content := String.mk (List.replicate 501 'x')
    metadata := []
    distance := 8/100
    score := 92/100 }

/-- `models.DocumentUpload` (src/models.py lines 6-9). -/
structure DocumentUpload where
  content : String
  metadata : Metadata

/-- The dict a service-level ingest call returns (src/rag_service.py lines
57-62 and 82-94): only the fields the HTTP layer inspects are modelled. -/
structure IngestResult where
  status : String
  message : String
  document_ids : List String

/-- A FastAPI `UploadFile` as `upload_text_file` reads it. -/
structure UploadFile where
  filename : String
  contentType : String
  content : String

/-- A Python exception as the handlers see one: FastAPI's `HTTPException`
(with status code and detail) or any other exception (its message). -/
inductive PyExc where
  | http (status : Nat) (detail : String)
  | other (msg : String)

/-- Python `str(e)`: starlette's `HTTPException.__str__` renders
`"{status_code}: {detail}"`; other exceptions render their message. -/
def strOfExc : PyExc → String
  | .http c d => toString c ++ ": " ++ d
  | .other m => m

/-- Python `s.strip()` on a `String`. -/
def pyStripStr (s : String) : String := String.mk (pyStrip s.data)

/-- Python `s.startswith(pre)`. -/
def pyStartsWith (s pre : String) : Bool := s.data.take pre.data.length = pre.data

/-- `query_documents` (src/main.py lines 149-161): inside `try`, a blank
query raises `HTTPException(400)`; `except Exception` catches every
exception — `HTTPException` included — and re-raises `HTTPException(500,
str(e))`.  The handler's outcome is the response or the raised
`(status, detail)`. -/
def queryEndpoint (svc : QueryRequest → QueryResponse) (req : QueryRequest) :
    Except (Nat × String) QueryResponse :=
  match (if pyStripStr req.query = "" then
      Except.error (PyExc.http 400 "Query cannot be empty")
    else Except.ok (svc req)) with
  | .ok r => .ok r
  | .error e => .error (500, strOfExc e)

/-- `add_documents_batch` (src/main.py lines 99-112): inside `try`, an empty
list raises `HTTPException(400)`, an error result raises
`HTTPException(500)`; the blanket `except Exception` re-raises everything as
`HTTPException(500, str(e))`. -/
def batchEndpoint (svc : List DocumentUpload → IngestResult)
    (docs : List DocumentUpload) : Except (Nat × String) IngestResult :=
  match (if docs.isEmpty then
      Except.error (PyExc.http 400 "No documents provided")
    else
      let r := svc docs
      if r.status = "error" then Except.error (PyExc.http 500 r.message)
      else Except.ok r) with
  | .ok r => .ok r
  | .error e => .error (500, strOfExc e)

/-- `upload_text_file` (src/main.py lines 114-147): inside `try`, a
content type not starting with `text/` raises `HTTPException(400)`; the
blanket `except Exception` re-raises everything as `HTTPException(500,
str(e))`. -/
def uploadEndpoint (svc : DocumentUpload → IngestResult) (file : UploadFile) :
    Except (Nat × String) IngestResult :=
  match (if ¬ pyStartsWith file.contentType "text/" then
      Except.error (PyExc.http 400 "Only text files are supported")
    else
      let r := svc { content := file.content
                     metadata := [("filename", .str file.filename),
                       ("content_type", .str file.contentType),
                       ("size", .int file.content.length)] }
      if r.status = "error" then Except.error (PyExc.http 500 r.message)
      else Except.ok r) with
  | .ok r => .ok r
  | .error e => .error (500, strOfExc e)

example : chunkText 6 3 1 "ab cd".data = some ["ab".data, "cd".data, "d".data] := by decide

example : rfind "abcdef.xyz".data '.' = 6 := by decide

example : pySlice "abcdef.xyzABCDEFGHIJK".data (-2) 8 = [] := by decide

lemma neg_one_le_rfind (l : Str) (c : Char) : -1 ≤ rfind l c := by
  induction l with
  | nil => simp [rfind]
  | cons a as ih =>
    simp only [rfind]
    split <;> [omega; split <;> omega]

lemma rfind_lt_length (l : Str) (c : Char) : rfind l c < (l.length : Int) := by
  induction l with
  | nil => simp [rfind]
  | cons a as ih =>
    simp only [rfind, List.length_cons]
    push_cast
    split <;> [omega; split <;> omega]

lemma pyStrip_length_le (l : Str) : (pyStrip l).length ≤ l.length := by
  unfold pyStrip
  have h1 : (l.dropWhile isPyWS).length ≤ l.length :=
    (List.dropWhile_sublist (p := isPyWS) (l := l)).length_le
  have h2 : ((l.dropWhile isPyWS).reverse.dropWhile isPyWS).length ≤
      (l.dropWhile isPyWS).reverse.length :=
    (List.dropWhile_sublist _).length_le
  simpa using le_trans (by simpa using h2) h1

lemma pySlice_eq_drop_take (t : Str) (i j : Int) (hi : 0 ≤ i) (hij : i ≤ j) :
    pySlice t i j = (t.drop i.toNat).take (j - i).toNat := by
  simp only [pySlice]
  rw [if_neg (by omega), if_neg (by omega)]
  rcases le_or_lt i (t.length : Int) with h | h
  · rw [min_eq_left h]
    refine (List.take_eq_take).2 ?_
    have hd : (t.drop i.toNat).length = t.length - i.toNat := List.length_drop _ _
    omega
  · rw [min_eq_right h.le]
    have h1 : t.drop ((t.length : Int)).toNat = [] := by simp
    have h2 : t.drop i.toNat = [] := List.drop_eq_nil_of_le (by omega)
    rw [h1, h2]
    simp

/-- Characterization of one loop iteration for a nonnegative cursor: the window
is `take k` of the remaining text for some `1 ≤ k ≤ cs` which is either the
full `chunk_size` or at least `chunk_size/2 + 2` (after a boundary snap), and
`end = start + k`. -/
lemma chunkStep_spec (cs : Nat) (t : Str) (start : Int) (hcs : 0 < cs)
    (h0 : 0 ≤ start) :
    ∃ k : Nat, 1 ≤ k ∧ k ≤ cs ∧ (cs / 2 + 2 ≤ k ∨ k = cs) ∧
      (chunkStep cs t start).1 = (t.drop start.toNat).take k ∧
      (chunkStep cs t start).2 = start + k := by
  have hw0 : pySlice t start (start + (cs : Int)) = (t.drop start.toNat).take cs := by
    rw [pySlice_eq_drop_take t start _ h0 (by omega)]
    congr 1
    omega
  simp only [chunkStep]
  set w0 := pySlice t start (start + (cs : Int)) with hw0def
  set bp := max (rfind w0 '.') (rfind w0 '\n') with hbpdef
  have hbp1 : -1 ≤ bp := le_trans (neg_one_le_rfind w0 '.') (le_max_left _ _)
  have hbp2 : bp < (w0.length : Int) :=
    max_lt (rfind_lt_length w0 '.') (rfind_lt_length w0 '\n')
  have hw0len : w0.length ≤ cs := by
    rw [hw0]
    simp only [List.length_take]
    exact min_le_left cs (t.drop start.toNat).length
  by_cases hfin : (start + (cs : Int)) < (t.length : Int)
  · rw [if_pos hfin]
    by_cases hbp : ((cs / 2 : Nat) : Int) < bp
    · rw [if_pos hbp]
      refine ⟨(bp + 1).toNat, by omega, by omega, Or.inl (by omega), ?_, ?_⟩
      · show pySlice w0 0 (bp + 1) = (t.drop start.toNat).take (bp + 1).toNat
        rw [pySlice_eq_drop_take w0 0 (bp + 1) le_rfl (by omega), hw0]
        simp only [Int.toNat_zero, List.drop_zero, sub_zero, List.take_take]
        congr 1
        omega
      · show start + bp + 1 = start + ((bp + 1).toNat : Int)
        omega
    · rw [if_neg hbp]
      exact ⟨cs, by omega, le_rfl, Or.inr rfl, hw0, rfl⟩
  · rw [if_neg hfin]
    exact ⟨cs, by omega, le_rfl, Or.inr rfl, hw0, rfl⟩

/-- The cursor advances past the overlap whenever `overlap ≤ chunk_size/2 + 1`. -/
lemma chunkStep_advance (cs ov : Nat) (t : Str) (start : Int) (hcs : 0 < cs)
    (hov : ov < cs) (hov2 : ov ≤ cs / 2 + 1) (h0 : 0 ≤ start) :
    start + (ov : Int) < (chunkStep cs t start).2 := by
  obtain ⟨k, hk1, hk2, hk3, _, hk5⟩ := chunkStep_spec cs t start hcs h0
  omega

/-- Under `overlap ≤ chunk_size/2 + 1` the loop terminates: fuel exceeding the
remaining text length suffices. -/
lemma windowLoop_total (cs ov : Nat) (t : Str) (hcs : 0 < cs) (hov : ov < cs)
    (hov2 : ov ≤ cs / 2 + 1) :
    ∀ (fuel : Nat) (start : Int), 0 ≤ start → start ≤ (t.length : Int) →
      (t.length : Int) - start < (fuel : Int) →
      ∃ ws, windowLoop cs ov t fuel start = some ws := by
  intro fuel
  induction fuel with
  | zero => intro start h0 h1 h2; omega
  | succ f ih =>
    intro start h0 h1 h2
    by_cases hlt : start < (t.length : Int)
    · have hadv := chunkStep_advance cs ov t start hcs hov hov2 h0
      simp only [windowLoop, if_pos hlt]
      by_cases h2n : (chunkStep cs t start).2 - (ov : Int) ≤ (t.length : Int)
      · obtain ⟨ws, hws⟩ := ih ((chunkStep cs t start).2 - (ov : Int))
          (by omega) h2n (by omega)
        exact ⟨_, by rw [hws]; rfl⟩
      · obtain ⟨f', rfl⟩ : ∃ f', f = f' + 1 := ⟨f - 1, by omega⟩
        refine ⟨[(chunkStep cs t start).1], ?_⟩
        have hc : ¬ ((chunkStep cs t start).2 - (ov : Int) < (t.length : Int)) := by
          omega
        have hnone : windowLoop cs ov t (f' + 1)
            ((chunkStep cs t start).2 - (ov : Int)) = some [] := by
          simp only [windowLoop, if_neg hc]
        rw [hnone]
        rfl
    · exact ⟨[], by simp only [windowLoop, if_neg hlt]⟩

/-- The chunking loop emits exactly the untrimmed windows, each `strip`ped. -/
lemma chunkLoop_eq_windowLoop (cs ov : Nat) (t : Str) :
    ∀ fuel (start : Int),
      chunkLoop cs ov t fuel start =
        (windowLoop cs ov t fuel start).map (List.map pyStrip) := by
  intro fuel
  induction fuel with
  | zero => intro start; rfl
  | succ f ih =>
    intro start
    simp only [chunkLoop, windowLoop]
    by_cases hlt : start < (t.length : Int)
    · rw [if_pos hlt, if_pos hlt, ih]
      cases windowLoop cs ov t f ((chunkStep cs t start).2 - (ov : Int)) <;> rfl
    · rw [if_neg hlt, if_neg hlt]
      rfl

/-- Soundness of the windows: dropping the declared overlap from every window
and concatenating yields exactly the text after `start + overlap`, and every
window is at most `chunk_size` long. -/
lemma windowLoop_sound (cs ov : Nat) (t : Str) (hcs : 0 < cs) (hov : ov < cs)
    (hov2 : ov ≤ cs / 2 + 1) :
    ∀ fuel (start : Int) (ws : List Str), 0 ≤ start →
      windowLoop cs ov t fuel start = some ws →
      dropConcat ov ws = t.drop (start.toNat + ov) ∧ ∀ w ∈ ws, w.length ≤ cs := by
  intro fuel
  induction fuel with
  | zero => intro start ws h0 h; exact absurd h (by simp [windowLoop])
  | succ f ih =>
    intro start ws h0 h
    simp only [windowLoop] at h
    by_cases hlt : start < (t.length : Int)
    · rw [if_pos hlt] at h
      obtain ⟨rest, hrest, hws⟩ := Option.map_eq_some'.1 h
      obtain ⟨k, hk1, hk2, hk3, hk4, hk5⟩ := chunkStep_spec cs t start hcs h0
      have hkov : ov < k := by omega
      obtain ⟨hrec, hlen⟩ := ih ((chunkStep cs t start).2 - (ov : Int)) rest
        (by omega) hrest
      have hs' : ((chunkStep cs t start).2 - (ov : Int)).toNat =
          start.toNat + k - ov := by omega
      rw [hs'] at hrec
      have hrec' : dropConcat ov rest = t.drop (start.toNat + k) := by
        rw [hrec]
        congr 1
        omega
      subst hws
      constructor
      · show dropConcat ov ((chunkStep cs t start).1 :: rest) = _
        have hsplit : dropConcat ov ((chunkStep cs t start).1 :: rest) =
            List.drop ov (chunkStep cs t start).1 ++ dropConcat ov rest := by
          simp [dropConcat]
        rw [hsplit, hrec', hk4, List.drop_take k ov]
        have hdd : (t.drop start.toNat).drop ov = t.drop (start.toNat + ov) :=
          List.drop_drop ov start.toNat t
        rw [hdd]
        have hdk : t.drop (start.toNat + k) =
            (t.drop (start.toNat + ov)).drop (k - ov) := by
          rw [List.drop_drop]
          congr 1
          omega
        rw [hdk]
        exact List.take_append_drop _ _
      · intro w hw
        rcases List.mem_cons.1 hw with hh | hh
        · subst hh
          rw [hk4]
          calc ((t.drop start.toNat).take k).length ≤ k := by
                simp [List.length_take]
            _ ≤ cs := hk2
        · exact hlen w hh
    · rw [if_neg hlt] at h
      obtain rfl : ([] : List Str) = ws := by injection h
      refine ⟨?_, by simp⟩
      have : t.length ≤ start.toNat + ov := by omega
      simp [dropConcat, List.drop_eq_nil_of_le this]

lemma lastIndexOf_nil (c : Char) : lastIndexOf [] c = -1 := rfl

lemma lastIndexOf_eq_rfind : ∀ (l : Str) (c : Char), lastIndexOf l c = rfind l c
  | [], _ => rfl
  | a :: as, c => by
    have ih := lastIndexOf_eq_rfind as c
    have hsplit : (a :: as).reverse.findIdx? (fun x => x = c) =
        (as.reverse.findIdx? (fun x => x = c)).or
          (Option.map (fun i => i + as.reverse.length)
            (([a] : Str).findIdx? (fun x => x = c))) := by
      rw [List.reverse_cons, List.findIdx?_append]
    cases h : as.reverse.findIdx? (fun x => x = c) with
    | some k =>
      obtain ⟨hk, -⟩ := List.findIdx?_eq_some_iff_getElem.1 h
      rw [List.length_reverse] at hk
      have hlast : lastIndexOf (a :: as) c = ((a :: as).length : Int) - 1 - k := by
        unfold lastIndexOf
        rw [hsplit, h, Option.or_some]
      have hlast2 : lastIndexOf as c = (as.length : Int) - 1 - k := by
        unfold lastIndexOf
        rw [h]
      have hras : rfind as c = (as.length : Int) - 1 - k := by rw [← ih, hlast2]
      rw [hlast]
      simp only [rfind]
      rw [if_pos (by rw [hras]; omega), hras]
      simp only [List.length_cons]
      push_cast
      ring
    | none =>
      have hnone : lastIndexOf as c = -1 := by unfold lastIndexOf; rw [h]
      have hras : rfind as c = -1 := by rw [← ih, hnone]
      by_cases hac : a = c
      · have h1 : ([a] : Str).findIdx? (fun x => x = c) = some 0 := by
          simp [List.findIdx?_cons, hac]
        have hlast : lastIndexOf (a :: as) c = 0 := by
          unfold lastIndexOf
          rw [hsplit, h, h1, Option.none_or, Option.map_some']
          simp only [List.length_reverse, List.length_cons, Nat.zero_add]
          push_cast
          ring
        rw [hlast]
        simp only [rfind]
        rw [if_neg (by rw [hras]; omega), if_pos hac]
      · have h1 : ([a] : Str).findIdx? (fun x => x = c) = none := by
          simp [List.findIdx?_cons, hac]
        have hlast : lastIndexOf (a :: as) c = -1 := by
          unfold lastIndexOf
          rw [hsplit, h, h1, Option.none_or, Option.map_none']
        rw [hlast]
        simp only [rfind]
        rw [if_neg (by rw [hras]; omega), if_neg hac]

lemma pySlice_neg_empty (t : Str) (cs : Nat) (start : Int) (hlen : cs < t.length)
    (h1 : -(cs : Int) ≤ start) (h2 : start < 0) :
    pySlice t start (start + (cs : Int)) = [] := by
  simp only [pySlice]
  rw [if_pos h2, if_neg (by omega)]
  have hz : ((min (start + (cs : Int)) (t.length : Int)) -
      max ((t.length : Int) + start) 0).toNat = 0 := by omega
  rw [hz]
  exact List.take_zero _

lemma chunkStep_neg (cs : Nat) (t : Str) (start : Int) (hlen : cs < t.length)
    (h1 : -(cs : Int) ≤ start) (h2 : start < 0) :
    chunkStep cs t start = ([], start + (cs : Int)) := by
  have hrnil : ∀ c : Char, rfind ([] : Str) c = -1 := fun _ => rfl
  simp only [chunkStep, pySlice_neg_empty t cs start hlen h1 h2, hrnil]
  rw [if_pos (by omega)]
  rw [if_neg (by omega)]

lemma specStep_eq_chunkStep (cs : Nat) (t : Str) (start : Int) (hcs : 0 < cs)
    (hlen : cs < t.length) (hst : -(cs : Int) ≤ start) :
    specStep cs t start = chunkStep cs t start := by
  have hrnil : ∀ c : Char, rfind ([] : Str) c = -1 := fun _ => rfl
  simp only [specStep, chunkStep, lastIndexOf_eq_rfind]
  rcases lt_or_le start 0 with h0 | h0
  · simp only [pySlice_neg_empty t cs start hlen hst h0, hrnil]
    rw [if_pos (by omega)]
    rw [if_neg (by omega)]
    rw [if_pos (by omega)]
    rw [if_neg (by omega)]
  · by_cases hfin : start + (cs : Int) < (t.length : Int)
    · rw [if_pos hfin, if_pos hfin]
      set w0 := pySlice t start (start + (cs : Int)) with hw0def
      set bp := max (rfind w0 '.') (rfind w0 '\n') with hbpdef
      by_cases hbp : ((cs / 2 : Nat) : Int) < bp
      · rw [if_pos hbp, if_pos hbp]
        have hbp2 : bp < (w0.length : Int) :=
          max_lt (rfind_lt_length w0 '.') (rfind_lt_length w0 '\n')
        have hw0 : w0 = (t.drop start.toNat).take cs := by
          rw [hw0def, pySlice_eq_drop_take t start _ h0 (by omega)]
          congr 1
          omega
        have hw0len : w0.length ≤ cs := by
          rw [hw0]
          simp only [List.length_take]
          exact min_le_left cs (t.drop start.toNat).length
        congr 1
        rw [pySlice_eq_drop_take t start _ h0 (by omega),
          pySlice_eq_drop_take w0 0 (bp + 1) le_rfl (by omega), hw0]
        simp only [Int.toNat_zero, List.drop_zero, sub_zero, List.take_take]
        congr 1
        omega
      · rw [if_neg hbp, if_neg hbp]
    · rw [if_neg hfin, if_neg hfin]

lemma specChunkLoop_eq_chunkLoop (cs ov : Nat) (t : Str) (hcs : 0 < cs)
    (hov : ov < cs) (hlen : cs < t.length) :
    ∀ (fuel : Nat) (start : Int), -(cs : Int) ≤ start →
      specChunkLoop cs ov t fuel start = chunkLoop cs ov t fuel start := by
  intro fuel
  induction fuel with
  | zero => intro start hst; rfl
  | succ f ih =>
    intro start hst
    simp only [specChunkLoop, chunkLoop]
    by_cases hlt : start < (t.length : Int)
    · rw [if_pos hlt, if_pos hlt, specStep_eq_chunkStep cs t start hcs hlen hst]
      have hst' : -(cs : Int) ≤ (chunkStep cs t start).2 - (ov : Int) := by
        rcases lt_or_le start 0 with h0 | h0
        · rw [chunkStep_neg cs t start hlen hst h0]
          omega
        · obtain ⟨k, hk1, hk2, -, -, hk5⟩ := chunkStep_spec cs t start hcs h0
          omega
      rw [ih _ hst']
    · rw [if_neg hlt, if_neg hlt]

/-- C1: on texts longer than `chunk_size`, with `chunk_size > 0` and
`0 ≤ overlap < chunk_size`, the code's chunker (`_chunk_text`) computes
exactly the specification's windowing algorithm: same clamped windows, same
`break_point = max(last '.', last newline)` with `-1` for absence, the same
strict `break_point > chunk_size / 2` shrink rule ending right after the
break character, the same whitespace-trimmed chunks appended without
empty-string filtering, and the same cursor advance to `end - overlap`
(for every fuel bound, so also for the diverging runs). -/
theorem chunkText_eq_specChunk (fuel cs ov : Nat) (t : Str) (hcs : 0 < cs)
    (hov : ov < cs) (hlen : cs < t.length) :
    chunkText fuel cs ov t = specChunk fuel cs ov t := by
  unfold chunkText specChunk
  rw [if_neg (by omega), if_neg (by omega)]
  exact (specChunkLoop_eq_chunkLoop cs ov t hcs hov hlen fuel 0 (by omega)).symm

/-- Witness for C1 at a concrete input. -/
theorem chunkText_eq_specChunk_witness :
    (0 < 3 ∧ 1 < 3 ∧ 3 < "ab cd".data.length) ∧
      chunkText 6 3 1 "ab cd".data = specChunk 6 3 1 "ab cd".data :=
  ⟨by decide, chunkText_eq_specChunk 6 3 1 "ab cd".data (by decide) (by decide) (by decide)⟩

lemma cycleText_loop_none :
    ∀ f, chunkLoop 10 9 cycleText f 0 = none ∧
      chunkLoop 10 9 cycleText f (-1) = none ∧
      chunkLoop 10 9 cycleText f (-2) = none := by
  intro f
  induction f with
  | zero => exact ⟨rfl, rfl, rfl⟩
  | succ f ih =>
    obtain ⟨h0, h1, h2⟩ := ih
    refine ⟨?_, ?_, ?_⟩
    · rw [show chunkLoop 10 9 cycleText (f + 1) 0 =
        (chunkLoop 10 9 cycleText f (-2)).map (fun rest => "abcdef.".data :: rest) from rfl, h2]
      rfl
    · rw [show chunkLoop 10 9 cycleText (f + 1) (-1) =
        (chunkLoop 10 9 cycleText f 0).map (fun rest => ([] : Str) :: rest) from rfl, h0]
      rfl
    · rw [show chunkLoop 10 9 cycleText (f + 1) (-2) =
        (chunkLoop 10 9 cycleText f (-1)).map (fun rest => ([] : Str) :: rest) from rfl, h1]
      rfl

/-- C2 counterexample: with `chunk_size = 10` and the valid `overlap = 9`
(`0 ≤ overlap < chunk_size`), the chunker diverges on a 21-character text: the
first window snaps at the period at index 6 (`6 > 10 // 2`), `end` becomes 7
and the cursor moves to `7 - 9 = -2`; Python's negative slices then yield
empty windows and the cursor cycles `0 → -2 → -1 → 0` forever, so the claimed
termination for every `0 ≤ overlap < chunk_size` is false. -/
theorem chunker_diverges_on_valid_overlap : chunkDiverges 10 9 cycleText := by
  intro fuel
  rw [chunkText, if_neg (by decide)]
  exact (cycleText_loop_none fuel).1

/-- C2 (amended): for `chunk_size > 0` and `0 ≤ overlap < chunk_size` with
additionally `overlap ≤ chunk_size/2 + 1`, the chunker (a pure function of
its inputs) terminates — fuel `length + 1` suffices — and returns a non-empty
sequence of chunks. -/
theorem chunkText_total_nonempty (cs ov : Nat) (t : Str) (hcs : 0 < cs)
    (hov : ov < cs) (hov2 : ov ≤ cs / 2 + 1) :
    ∃ cks, chunkText (t.length + 1) cs ov t = some cks ∧ cks ≠ [] := by
  by_cases hlen : t.length ≤ cs
  · exact ⟨[t], by rw [chunkText, if_pos hlen], by simp⟩
  · obtain ⟨ws, hws⟩ := windowLoop_total cs ov t hcs hov hov2 (t.length + 1) 0
      le_rfl (by omega) (by omega)
    refine ⟨ws.map pyStrip, ?_, ?_⟩
    · rw [chunkText, if_neg hlen, chunkLoop_eq_windowLoop, hws]
      rfl
    · have h0lt : (0 : Int) < (t.length : Int) := by omega
      simp only [windowLoop, if_pos h0lt] at hws
      obtain ⟨rest, -, hcons⟩ := Option.map_eq_some'.1 hws
      rw [← hcons]
      simp

/-- Witness for C2's amended theorem at a concrete input. -/
theorem chunkText_total_nonempty_witness :
    (0 < 3 ∧ 1 < 3 ∧ 1 ≤ 3 / 2 + 1) ∧
      ∃ cks, chunkText ("ab cd".data.length + 1) 3 1 "ab cd".data = some cks ∧ cks ≠ [] :=
  ⟨by decide, chunkText_total_nonempty 3 1 "ab cd".data (by decide) (by decide) (by decide)⟩

/-- C3: the code has no fail-fast for `overlap ≥ chunk_size` — neither
`__init__` nor `_chunk_text` validates the configuration — and with
`overlap = chunk_size = 10` on an 11-character text without sentence breaks
the cursor advance `start = end - overlap` leaves `start = 0` forever: the
chunker loops instead of signalling a configuration error. -/
theorem chunker_loops_on_overlap_ge_chunk_size : chunkDiverges 10 10 stallText := by
  have hcycle : ∀ f, chunkLoop 10 10 stallText f 0 = none := by
    intro f
    induction f with
    | zero => rfl
    | succ f ih =>
      rw [show chunkLoop 10 10 stallText (f + 1) 0 =
        (chunkLoop 10 10 stallText f 0).map
          (fun rest => (List.replicate 10 'a') :: rest) from rfl, ih]
      rfl
  intro fuel
  rw [chunkText, if_neg (by decide)]
  exact hcycle fuel

/-- C4: a text no longer than `chunk_size` (the empty text included) is
returned verbatim as the single-element sequence `[text]` — not trimmed,
never split, for every overlap and every fuel. -/
theorem chunkText_short_verbatim (fuel cs ov : Nat) (t : Str) (h : t.length ≤ cs) :
    chunkText fuel cs ov t = some [t] := by
  rw [chunkText, if_pos h]

/-- Witness for C4: an untrimmed 3-character text with `overlap > chunk_size`,
and the empty text. -/
theorem chunkText_short_verbatim_witness :
    ((" a ".data.length ≤ 5 ∧ chunkText 0 5 7 " a ".data = some [" a ".data]) ∧
      (([] : Str).length ≤ 5 ∧ chunkText 0 5 2 ([] : Str) = some [([] : Str)])) :=
  ⟨⟨by decide, chunkText_short_verbatim 0 5 7 " a ".data (by decide)⟩,
    ⟨by decide, chunkText_short_verbatim 0 5 2 ([] : Str) (by decide)⟩⟩

/-- C5 counterexample: chunks are whitespace-trimmed before they are emitted,
so concatenation-with-overlap-removal does not reconstruct the source.  With
`chunk_size = 3`, `overlap = 1` on `"ab cd"`, the chunks are
`["ab", "cd", "d"]` and removing the declared 1-character overlap from each
later chunk rebuilds `"abd"`, not `"ab cd"`: the space trimmed from the
window boundaries is lost. -/
theorem chunkRecon_fails :
    chunkText 6 3 1 "ab cd".data = some ["ab".data, "cd".data, "d".data] ∧
      reconOverlap 1 ["ab".data, "cd".data, "d".data] ≠ "ab cd".data :=
  ⟨by decide, by decide⟩

/-- C5 (amended): stated where the chunker terminates
(`overlap ≤ chunk_size/2 + 1`): every emitted chunk has length ≤
`chunk_size`; the untrimmed windows the loop slices overlap consecutively in
exactly the declared `overlap` characters, so concatenation-with-overlap-
removal of the windows reconstructs the source text exactly; the emitted
chunks are these windows whitespace-trimmed, so reconstruction from the
chunks themselves can lose boundary whitespace. -/
theorem chunk_bounded_and_windows_reconstruct (cs ov : Nat) (t : Str)
    (hcs : 0 < cs) (hov : ov < cs) (hov2 : ov ≤ cs / 2 + 1) (hlen : cs < t.length) :
    ∃ ws, windowLoop cs ov t (t.length + 1) 0 = some ws ∧
      reconOverlap ov ws = t ∧
      chunkText (t.length + 1) cs ov t = some (ws.map pyStrip) ∧
      ∀ c ∈ ws.map pyStrip, c.length ≤ cs := by
  obtain ⟨ws, hws⟩ := windowLoop_total cs ov t hcs hov hov2 (t.length + 1) 0
    le_rfl (by omega) (by omega)
  refine ⟨ws, hws, ?_, ?_, ?_⟩
  · have h0lt : (0 : Int) < (t.length : Int) := by omega
    have hws' := hws
    simp only [windowLoop, if_pos h0lt] at hws'
    obtain ⟨rest, hrest, hcons⟩ := Option.map_eq_some'.1 hws'
    obtain ⟨k, hk1, hk2, hk3, hk4, hk5⟩ := chunkStep_spec cs t 0 hcs le_rfl
    obtain ⟨hrec, -⟩ := windowLoop_sound cs ov t hcs hov hov2 _ _ rest
      (by omega) hrest
    have hrec' : dropConcat ov rest = t.drop k := by
      rw [hrec]
      congr 1
      omega
    rw [← hcons]
    simp only [reconOverlap]
    rw [hk4, hrec']
    simp only [Int.toNat_zero, List.drop_zero]
    exact List.take_append_drop k t
  · rw [chunkText, if_neg (by omega), chunkLoop_eq_windowLoop, hws]
    rfl
  · intro c hc
    obtain ⟨w, hw, rfl⟩ := List.mem_map.1 hc
    obtain ⟨-, hlens⟩ := windowLoop_sound cs ov t hcs hov hov2 _ _ ws le_rfl hws
    exact le_trans (pyStrip_length_le w) (hlens w hw)

/-- Witness for C5's amended theorem at a concrete input. -/
theorem chunk_bounded_and_windows_reconstruct_witness :
    (0 < 3 ∧ 1 < 3 ∧ 1 ≤ 3 / 2 + 1 ∧ 3 < "ab cd".data.length) ∧
      ∃ ws, windowLoop 3 1 "ab cd".data ("ab cd".data.length + 1) 0 = some ws ∧
        reconOverlap 1 ws = "ab cd".data ∧
        chunkText ("ab cd".data.length + 1) 3 1 "ab cd".data = some (ws.map pyStrip) ∧
        ∀ c ∈ ws.map pyStrip, c.length ≤ 3 :=
  ⟨by decide, chunk_bounded_and_windows_reconstruct 3 1 "ab cd".data
    (by decide) (by decide) (by decide) (by decide)⟩

lemma ragQuery_false_eq (agentRun : String → Except String String)
    (searchFn : String → Nat → List RetrievedDoc) (req : QueryRequest) :
    ragQuery false agentRun searchFn req =
      { answer := fallbackResponse req.query (searchFn req.query req.top_k)
        sources := (searchFn req.query req.top_k).map fun d =>
          { id := d.id, content := d.content, metadata := d.metadata, score := some d.score }
        query := req.query } := rfl

lemma ragQueryBody_true_eq (agentRun : String → Except String String)
    (searchFn : String → Nat → List RetrievedDoc) (req : QueryRequest) :
    ragQueryBody true agentRun searchFn req =
      (agentRun (promptFor (searchFn req.query req.top_k) req.query)).bind fun answer =>
        Except.ok
          { answer := answer
            sources := (searchFn req.query req.top_k).map fun d =>
              { id := d.id, content := d.content, metadata := d.metadata, score := some d.score }
            query := req.query } := rfl

/-- C6: with the Answer Generator unavailable, `query` answers locally: with
no retrieved results the templated no-relevant-documents message carrying the
literal query text, and zero sources; otherwise the templated message
embedding the top result's score formatted to two decimals and its content
truncated to the first 500 characters, with an ellipsis appended exactly when
the content is longer than 500 characters. -/
theorem query_fallback_shape (agentRun : String → Except String String)
    (searchFn : String → Nat → List RetrievedDoc) (req : QueryRequest) :
    (searchFn req.query req.top_k = [] →
      ragQuery false agentRun searchFn req =
        { answer := "I found no relevant documents to answer your question: '" ++
            req.query ++
            "'. Please try rephrasing your question or add more documents to the knowledge base."
          sources := []
          query := req.query }) ∧
    (∀ d rest, searchFn req.query req.top_k = d :: rest →
      (ragQuery false agentRun searchFn req).answer =
        "Based on the most relevant document (similarity: " ++ format2f d.score ++
          "), here's what I found:\n\n" ++ d.content.take 500 ++
          (if 500 < d.content.length then "..." else "") ++
          "\n\nNote: This is a simplified response. For better answers, please ensure Ollama is running with the '" ++
          LLM_MODEL ++ "' model.") := by
  constructor
  · intro h
    rw [ragQuery_false_eq, h]
    rfl
  · intro d rest h
    rw [ragQuery_false_eq, h]
    rfl

lemma format2f_092 : format2f (92/100 : ℚ) = "0.92" := by
  have h1 : ((92/100 : ℚ) * 100) = 92 := by norm_num
  have h2 : roundHalfEven 92 = 92 := by
    unfold roundHalfEven
    have hf : ⌊(92 : ℚ)⌋ = 92 := by norm_num
    rw [hf]
    norm_num
  unfold format2f
  rw [h1, h2]
  decide

set_option maxRecDepth 8192 in
/-- Witness for C6: one stored chunk with similarity 0.92 and 501-character
content, generator unavailable: the fallback embeds "0.92" and the first 500
characters followed by an ellipsis, the no-result case names the query. -/
theorem query_fallback_shape_witness :
    ((fun (_ : String) (_ : Nat) => [topDoc]) "what" 5 = topDoc :: []) ∧
    format2f topDoc.score = "0.92" ∧
    (if 500 < topDoc.content.length then "..." else "") = "..." ∧
    (ragQuery false (fun _ => Except.error "down") (fun _ _ => [topDoc])
        { query := "what", top_k := 5 }).answer =
      "Based on the most relevant document (similarity: " ++ format2f topDoc.score ++
        "), here's what I found:\n\n" ++ topDoc.content.take 500 ++
        (if 500 < topDoc.content.length then "..." else "") ++
        "\n\nNote: This is a simplified response. For better answers, please ensure Ollama is running with the '" ++
        LLM_MODEL ++ "' model." :=
  ⟨rfl, format2f_092, by decide,
    (query_fallback_shape (fun _ => Except.error "down") (fun _ _ => [topDoc])
      { query := "what", top_k := 5 }).2 topDoc [] rfl⟩

/-- C7: the query operation never raises past the orchestrator boundary: the
query field is always preserved, and whenever the body of the `try` block
raises (any exception `e`), the result is the templated error answer with
empty sources. -/
theorem query_never_raises (llmAvailable : Bool)
    (agentRun : String → Except String String)
    (searchFn : String → Nat → List RetrievedDoc) (req : QueryRequest) :
    (ragQuery llmAvailable agentRun searchFn req).query = req.query ∧
    (∀ e, ragQueryBody llmAvailable agentRun searchFn req = .error e →
      ragQuery llmAvailable agentRun searchFn req =
        { answer := "Sorry, I encountered an error while processing your query: " ++ e
          sources := []
          query := req.query }) := by
  constructor
  · cases llmAvailable with
    | false => rw [ragQuery_false_eq]
    | true =>
      unfold ragQuery
      rw [ragQueryBody_true_eq]
      cases agentRun (promptFor (searchFn req.query req.top_k) req.query) with
      | error e => rfl
      | ok a => rfl
  · intro e he
    unfold ragQuery
    rw [he]

/-- Witness for C7: a raising agent is absorbed into the error answer. -/
theorem query_never_raises_witness :
    ragQueryBody true (fun _ => Except.error "Ollama unreachable")
        (fun _ _ => []) { query := "hi", top_k := 5 } =
      Except.error "Ollama unreachable" ∧
    ragQuery true (fun _ => Except.error "Ollama unreachable")
        (fun _ _ => []) { query := "hi", top_k := 5 } =
      { answer := "Sorry, I encountered an error while processing your query: " ++
          "Ollama unreachable"
        sources := []
        query := "hi" } :=
  ⟨rfl, (query_never_raises true (fun _ => Except.error "Ollama unreachable")
    (fun _ _ => []) { query := "hi", top_k := 5 }).2 "Ollama unreachable" rfl⟩

/-- C8 (code behavior at the validation inputs): a blank query, an empty
batch and a non-text upload are each rejected before any collaborator is
invoked — the outcome is the same for every service function — but the
`HTTPException(400)` raised by the validation is caught by the handler's own
blanket `except Exception` and re-raised as `HTTPException(500, str(e))`, so
the client receives status 500 with the original 400 detail inside the
message, not the claimed 400 status. -/
theorem validation_rejected_with_500 (svc1 : QueryRequest → QueryResponse)
    (svc2 : List DocumentUpload → IngestResult)
    (svc3 : DocumentUpload → IngestResult) :
    queryEndpoint svc1 { query := "   ", top_k := 5 } =
      .error (500, "400: Query cannot be empty") ∧
    batchEndpoint svc2 [] = .error (500, "400: No documents provided") ∧
    uploadEndpoint svc3 { filename := "img.png", contentType := "image/png", content := "x" } =
      .error (500, "400: Only text files are supported") :=
  ⟨rfl, rfl, rfl⟩

lemma dictGet_insert_self : ∀ (d : Metadata) (k : String) (v : MetaValue),
    dictGet (dictInsert d k v) k = some v := by
  intro d k v
  unfold dictInsert
  induction d with
  | nil => simp [dictGet]
  | cons p d ih =>
    obtain ⟨pk, pv⟩ := p
    simp only [List.filter_cons]
    by_cases h : pk = k
    · rw [if_neg (by simp [h])]
      exact ih
    · rw [if_pos (by simp [h])]
      show dictGet ((pk, pv) :: _) k = some v
      simp only [dictGet]
      rw [if_neg fun hk => h hk.symm]
      exact ih

lemma dictGet_insert_ne : ∀ (d : Metadata) (k k' : String) (v : MetaValue),
    k' ≠ k → dictGet (dictInsert d k v) k' = dictGet d k' := by
  intro d k k' v hne
  unfold dictInsert
  induction d with
  | nil => simp [dictGet, hne]
  | cons p d ih =>
    obtain ⟨pk, pv⟩ := p
    simp only [List.filter_cons]
    by_cases h : pk = k
    · rw [if_neg (by simp [h])]
      rw [ih]
      show dictGet d k' = dictGet ((pk, pv) :: d) k'
      simp only [dictGet]
      rw [if_neg (by rw [h]; exact hne)]
    · rw [if_pos (by simp [h])]
      show dictGet ((pk, pv) :: _) k' = dictGet ((pk, pv) :: d) k'
      simp only [dictGet]
      by_cases hk' : k' = pk
      · rw [if_pos hk', if_pos hk']
      · rw [if_neg hk', if_neg hk']
        exact ih

lemma chunkMetadata_get (md : Metadata) (i total dlen : Nat) :
    dictGet (chunkMetadata md i total dlen) "chunk_index" = some (.int i) ∧
    dictGet (chunkMetadata md i total dlen) "total_chunks" = some (.int total) ∧
    dictGet (chunkMetadata md i total dlen) "original_doc_length" = some (.int dlen) ∧
    ∀ k, k ≠ "chunk_index" → k ≠ "total_chunks" → k ≠ "original_doc_length" →
      dictGet (chunkMetadata md i total dlen) k = dictGet md k := by
  unfold chunkMetadata
  refine ⟨?_, ?_, ?_, ?_⟩
  · rw [dictGet_insert_ne _ _ _ _ (by decide), dictGet_insert_ne _ _ _ _ (by decide),
      dictGet_insert_self]
  · rw [dictGet_insert_ne _ _ _ _ (by decide), dictGet_insert_self]
  · rw [dictGet_insert_self]
  · intro k h1 h2 h3
    rw [dictGet_insert_ne _ _ _ _ h3, dictGet_insert_ne _ _ _ _ h2,
      dictGet_insert_ne _ _ _ _ h1]

lemma chunkText_isSome (cs ov : Nat) (t : Str) (hcs : 0 < cs) (hov : ov < cs)
    (hov2 : ov ≤ cs / 2 + 1) :
    ∃ cks, chunkText (t.length + 1) cs ov t = some cks := by
  by_cases hlen : t.length ≤ cs
  · exact ⟨[t], by rw [chunkText, if_pos hlen]⟩
  · obtain ⟨ws, hws⟩ := windowLoop_total cs ov t hcs hov hov2 (t.length + 1) 0
      le_rfl (by omega) (by omega)
    exact ⟨ws.map pyStrip,
      by rw [chunkText, if_neg hlen, chunkLoop_eq_windowLoop, hws]; rfl⟩

/-- C9: ingesting a document stores one record per chunk, in chunk order,
each with a fresh unique id (`uuid4` modelled as an injective id stream), and
each record's metadata is the caller-supplied dict overridden with
`chunk_index = i` (production order), `total_chunks` = the number of chunks
the chunker produced, and `original_doc_length` = the length of the source
text; every other key reads exactly as in the caller's metadata.  (Stated
with the termination-ensuring overlap bound of C2.) -/
theorem ingest_chunk_metadata_and_ids (cs ov : Nat) (embedder : Str → List ℚ)
    (ids : Nat → String) (content : Str) (metadata : Metadata)
    (hcs : 0 < cs) (hov : ov < cs) (hov2 : ov ≤ cs / 2 + 1)
    (hids : Function.Injective ids) :
    ∃ chunks records,
      chunkText (content.length + 1) cs ov content = some chunks ∧
      addTextDocument cs ov embedder ids content metadata = some records ∧
      records.length = chunks.length ∧
      (records.map (fun r => r.id)).Nodup ∧
      (∀ i (h1 : i < records.length) (h2 : i < chunks.length),
        records[i].id = ids i ∧
        records[i].text = chunks[i] ∧
        dictGet records[i].metadata "chunk_index" = some (.int i) ∧
        dictGet records[i].metadata "total_chunks" = some (.int chunks.length) ∧
        dictGet records[i].metadata "original_doc_length" = some (.int content.length) ∧
        ∀ k, k ≠ "chunk_index" → k ≠ "total_chunks" → k ≠ "original_doc_length" →
          dictGet records[i].metadata k = dictGet metadata k) := by
  obtain ⟨chunks, hchunks⟩ := chunkText_isSome cs ov content hcs hov hov2
  refine ⟨chunks, chunks.enum.map fun p =>
    { id := ids p.1
      embedding := embedder p.2
      text := p.2
      metadata := chunkMetadata metadata p.1 chunks.length content.length },
    hchunks, ?_, ?_, ?_, ?_⟩
  · unfold addTextDocument
    rw [hchunks]
    rfl
  · simp
  · have hmap : ((chunks.enum.map fun p =>
        ({ id := ids p.1
           embedding := embedder p.2
           text := p.2
           metadata := chunkMetadata metadata p.1 chunks.length content.length } :
          StoredRecord)).map fun r => r.id) =
        (List.range chunks.length).map ids := by
      rw [List.map_map,
        show ((fun r : StoredRecord => r.id) ∘ fun p : Nat × Str =>
          ({ id := ids p.1
             embedding := embedder p.2
             text := p.2
             metadata := chunkMetadata metadata p.1 chunks.length content.length } :
            StoredRecord)) = (fun p : Nat × Str => ids p.1) from rfl,
        show (fun p : Nat × Str => ids p.1) = ids ∘ Prod.fst from rfl,
        ← List.map_map, List.enum_map_fst]
    rw [hmap]
    exact (List.nodup_range _).map hids
  · intro i h1 h2
    simp only [List.getElem_map, List.getElem_enum]
    obtain ⟨g1, g2, g3, g4⟩ := chunkMetadata_get metadata i chunks.length content.length
    exact ⟨by simp, by simp, g1, g2, g3, g4⟩

/-- Witness for C9 at a concrete input with an explicitly injective id stream. -/
theorem ingest_chunk_metadata_and_ids_witness :
    Function.Injective (fun n => String.mk (List.replicate n 'a')) ∧
    ∃ chunks records,
      chunkText ("ab cd".data.length + 1) 3 1 "ab cd".data = some chunks ∧
      addTextDocument 3 1 (fun _ => [1]) (fun n => String.mk (List.replicate n 'a'))
        "ab cd".data [("topic", MetaValue.str "ai")] = some records ∧
      records.length = chunks.length ∧
      (records.map (fun r => r.id)).Nodup ∧
      (∀ i (h1 : i < records.length) (h2 : i < chunks.length),
        records[i].id = (fun n => String.mk (List.replicate n 'a')) i ∧
        records[i].text = chunks[i] ∧
        dictGet records[i].metadata "chunk_index" = some (.int i) ∧
        dictGet records[i].metadata "total_chunks" = some (.int chunks.length) ∧
        dictGet records[i].metadata "original_doc_length" = some (.int "ab cd".data.length) ∧
        ∀ k, k ≠ "chunk_index" → k ≠ "total_chunks" → k ≠ "original_doc_length" →
          dictGet records[i].metadata k = dictGet [("topic", MetaValue.str "ai")] k) :=
  have hinj : Function.Injective (fun n => String.mk (List.replicate n 'a')) :=
    fun a b h => by
      simpa using congrArg (fun s : String => s.data.length) h
  ⟨hinj, ingest_chunk_metadata_and_ids 3 1 (fun _ => [1])
    (fun n => String.mk (List.replicate n 'a')) "ab cd".data
    [("topic", MetaValue.str "ai")] (by decide) (by decide) (by decide) hinj⟩

lemma searchKB_eq (embedQ : String → Except String (List ℚ))
    (collQuery : List ℚ → Nat → Except String RawResults) (q : String) (limit : Nat) :
    searchKB embedQ collQuery q limit =
      match embedQ q with
      | .error _ => []
      | .ok emb =>
        match collQuery emb limit with
        | .error _ => []
        | .ok raw => formatResults raw := by
  unfold searchKB
  rcases embedQ q with e | emb
  · rfl
  · show (match (collQuery emb limit).bind (fun raw => Except.ok (formatResults raw)) with
      | .ok r => r
      | .error _ => ([] : List RetrievedDoc)) =
      match collQuery emb limit with
      | .error _ => []
      | .ok raw => formatResults raw
    rcases collQuery emb limit with e | raw
    · rfl
    · rfl

/-- C10: the knowledge-base search never raises: a failing embedding call or
a failing vector-index query is caught and the empty list returned — the same
result a query against an empty collection (`ids = [[]]`) produces, so at the
orchestrator level a retrieval failure is indistinguishable from an empty
collection. -/
theorem search_absorbs_failures (embedQ : String → Except String (List ℚ))
    (collQuery : List ℚ → Nat → Except String RawResults) (q : String) (limit : Nat) :
    (∀ e, embedQ q = .error e → searchKB embedQ collQuery q limit = []) ∧
    (∀ emb e, embedQ q = .ok emb → collQuery emb limit = .error e →
      searchKB embedQ collQuery q limit = []) ∧
    (∀ emb raw, embedQ q = .ok emb → collQuery emb limit = .ok raw →
      raw.ids = [[]] → searchKB embedQ collQuery q limit = []) := by
  refine ⟨?_, ?_, ?_⟩
  · intro e he
    rw [searchKB_eq, he]
  · intro emb e he hc
    rw [searchKB_eq, he]
    show (match collQuery emb limit with
      | Except.error _ => ([] : List RetrievedDoc)
      | Except.ok raw => formatResults raw) = []
    rw [hc]
  · intro emb raw he hc hraw
    rw [searchKB_eq, he]
    show (match collQuery emb limit with
      | Except.error _ => ([] : List RetrievedDoc)
      | Except.ok raw => formatResults raw) = []
    rw [hc]
    simp [formatResults, hraw]

/-- Witness for C10: a failing embedder, a failing index and an empty
collection all yield the empty result list. -/
theorem search_absorbs_failures_witness :
    ((fun (_ : String) => (Except.error "embedder down" : Except String (List ℚ))) "q" =
      Except.error "embedder down") ∧
    searchKB (fun _ => Except.error "embedder down")
      (fun _ _ => Except.error "index down") "q" 5 = [] ∧
    searchKB (fun _ => Except.ok [])
      (fun _ _ => Except.error "index down") "q" 5 = [] ∧
    searchKB (fun _ => Except.ok [])
      (fun _ _ => Except.ok
        { ids := [[]], documents := [[]], metadatas := none, distances := none })
      "q" 5 = [] :=
  ⟨rfl,
    (search_absorbs_failures (fun _ => Except.error "embedder down")
      (fun _ _ => Except.error "index down") "q" 5).1 "embedder down" rfl,
    (search_absorbs_failures (fun _ => Except.ok [])
      (fun _ _ => Except.error "index down") "q" 5).2.1 [] "index down" rfl rfl,
    (search_absorbs_failures (fun _ => Except.ok [])
      (fun _ _ => Except.ok
        { ids := [[]], documents := [[]], metadatas := none, distances := none })
      "q" 5).2.2 []
      { ids := [[]], documents := [[]], metadatas := none, distances := none } rfl rfl rfl⟩
